import Mathlib

/-!
Shallow embedding of the node-health evaluator of `src/bot.py`
(CortensorMonitor): the transaction-window functions inlined in
`auto_update` / `menu_check_status` / `alert_check`, the retrying fetch
helpers `safe_fetch_balance` / `safe_fetch_transactions`, and the address
ingestion of `add_address_receive`.  Timestamps are unix seconds (ℤ),
monetary amounts and delays are exact rationals (ℚ).
-/

/-- A transaction record as consumed by the bot: the fields it reads from
the explorer response dicts (`timeStamp` already parsed to an integer,
`isError` and `input` as the raw strings, `functionName` for the
spec-described substantive-transaction scan). -/
structure Tx where
  timeStamp : Int
  isError : String
  input : String
  functionName : String
deriving DecidableEq

/-- Online/offline verdict, from the strings "🟢 Online" / "🔴 Offline". -/
inductive OnlineStatus where
  | online
  | offline
deriving DecidableEq

/-- One group verdict of the health strip: "🟩" / "🟥" / "⬜". -/
inductive GroupVerdict where
  | healthy
  | unhealthy
  | empty
deriving DecidableEq

/-- Stall field of a report: "🚨 Node Stall" / "✅ Normal" / "N/A" (the
last one is produced only on the empty-transaction branch). -/
inductive StallStatus where
  | stalled
  | normal
  | na
deriving DecidableEq

/-- Health field of a report: either the five-group strip or the literal
"No transactions" of the empty-transaction branch. -/
inductive HealthDisplay where
  | strip (groups : List GroupVerdict)
  | noTransactions
deriving DecidableEq

/-- Python `s.lower()`, modelled character-wise (the strings involved are
ASCII, where the two agree). -/
def lowerChars (s : String) : List Char :=
  s.toList.map Char.toLower

/-- Heartbeat test with an explicit selector, from
`tx.get('input','').lower().startswith(...)` (bot.py lines 228, 256, 406). -/
def isHbWith (sel : String) (tx : Tx) : Bool :=
  sel.toList.isPrefixOf (lowerChars tx.input)

/-- The heartbeat ("PING") test with the selector constant of the source,
`0x5c36b186`. -/
def isHeartbeat (tx : Tx) : Bool :=
  isHbWith "0x5c36b186" tx

/-- Stall condition from bot.py line 228 (identical at lines 256 and 406):
`len(latest_25) >= 25 and all(tx.get('input','').lower().startswith("0x5c36b186") for tx in latest_25)`
where `latest_25 = txs[:25]`. -/
def computeStallStatus (txs : List Tx) : StallStatus :=
  if 25 ≤ (txs.take 25).length ∧ (txs.take 25).all isHeartbeat = true
  then .stalled else .normal

/-- Group i of the health strip, `latest_25[i*5:(i+1)*5]` (bot.py line 225). -/
def groupOf (txs : List Tx) (i : Nat) : List Tx :=
  ((txs.take 25).drop (i * 5)).take 5

/-- Verdict of one group (bot.py line 226):
`("🟩" if all(tx.get('isError') == '0' for tx in group) else "🟥") if group else "⬜"`. -/
def groupVerdict (g : List Tx) : GroupVerdict :=
  if g.isEmpty then .empty
  else if g.all (fun tx => tx.isError == "0") then .healthy else .unhealthy

/-- The health strip (bot.py lines 225-226): five consecutive groups of
five taken from the first 25 transactions, each mapped to its verdict. -/
def computeHealthStrip (txs : List Tx) : List GroupVerdict :=
  (List.range 5).map (fun i => groupVerdict (groupOf txs i))

/-- Online check of bot.py lines 220-222 (and 398-400): a non-empty list is
Online when `now - txs[0].timeStamp` is at most 5 minutes (300 seconds);
the empty list takes the Offline branch of lines 229-230. -/
def computeOnlineStatus (now : Int) (txs : List Tx) : OnlineStatus :=
  match txs with
  | [] => .offline
  | t :: _ => if now - t.timeStamp ≤ 300 then .online else .offline

/-- The per-address report assembled by `auto_update` (bot.py lines
219-233) and identically by `menu_check_status` (lines 397-411).  The
last-activity age is kept as the raw seconds value that `get_age` formats;
`none` stands for the "N/A" of the empty branch. -/
structure Report where
  balance : Rat
  online : OnlineStatus
  lastActivity : Option Int
  health : HealthDisplay
  stall : StallStatus
deriving DecidableEq

/-- Report construction from bot.py lines 219-233: the non-empty branch
computes status, age, strip and stall from the transactions; the empty
branch fixes Offline / "N/A" / "No transactions" / "N/A". -/
def buildReport (now : Int) (balance : Rat) (txs : List Tx) : Report :=
  match txs with
  | [] => ⟨balance, .offline, none, .noTransactions, .na⟩
  | t :: rest =>
      ⟨balance, computeOnlineStatus now (t :: rest), some (now - t.timeStamp),
        .strip (computeHealthStrip (t :: rest)), computeStallStatus (t :: rest)⟩

/-- An all-success heartbeat transaction used for boundary checks. -/
def pingTx : Tx :=
  ⟨0, "0", "0x5c36b186aabbcc", "pingAll()"⟩

/-- A failed heartbeat transaction (`isError` = "1"). -/
def failedPingTx : Tx :=
  ⟨7, "1", "0x5C36B186ddeeff", "pingAll()"⟩

lemma stall_iff (txs : List Tx) :
    (computeStallStatus txs = .stalled ↔
      25 ≤ txs.length ∧ ∀ tx ∈ txs.take 25, isHeartbeat tx = true) ∧
    (computeStallStatus txs = .normal ↔
      ¬ (25 ≤ txs.length ∧ ∀ tx ∈ txs.take 25, isHeartbeat tx = true)) := by
  unfold computeStallStatus
  have hmin : (25 ≤ min 25 txs.length) ↔ 25 ≤ txs.length := by omega
  split_ifs with h <;>
    simp only [List.length_take, List.all_eq_true, hmin] at h
  · exact ⟨iff_of_true rfl h, iff_of_false (by decide) (not_not_intro h)⟩
  · exact ⟨iff_of_false (by decide) h, iff_of_true rfl h⟩

/-- C1. Stall detection: the status is Stalled iff at least 25 transactions
exist and all of the first 25 are heartbeat (case-insensitive prefix
0x5c36b186 on the input field); shorter lists and windows with a
non-heartbeat transaction give Normal; boundary at 24 vs 25 heartbeats. -/
theorem c1_stall_detection (txs : List Tx) :
    (computeStallStatus txs = .stalled ↔
      25 ≤ txs.length ∧ ∀ tx ∈ txs.take 25, isHeartbeat tx = true) ∧
    (txs.length < 25 → computeStallStatus txs = .normal) ∧
    ((∃ tx ∈ txs.take 25, isHeartbeat tx = false) → computeStallStatus txs = .normal) ∧
    computeStallStatus (List.replicate 24 pingTx) = .normal ∧
    computeStallStatus (List.replicate 25 pingTx) = .stalled := by
  obtain ⟨h1, h2⟩ := stall_iff txs
  refine ⟨h1, ?_, ?_, by decide, by decide⟩
  · intro hlt
    exact h2.mpr (fun hc => absurd hc.1 (by omega))
  · rintro ⟨tx, htx, hfalse⟩
    exact h2.mpr (fun hc => by simpa [hfalse] using hc.2 tx htx)

lemma healthStrip_getD (txs : List Tx) (i : Nat) (hi : i < 5) :
    (computeHealthStrip txs).getD i .empty = groupVerdict (groupOf txs i) := by
  interval_cases i <;> rfl

lemma groupVerdict_spec (g : List Tx) (hg : g ≠ []) :
    (groupVerdict g = .healthy ↔ ∀ tx ∈ g, tx.isError = "0") ∧
    (groupVerdict g = .unhealthy ↔ ¬ ∀ tx ∈ g, tx.isError = "0") := by
  unfold groupVerdict
  rw [if_neg (by simpa [List.isEmpty_iff] using hg)]
  split_ifs with hall
  · have hforall : ∀ tx ∈ g, tx.isError = "0" := by
      intro tx htx
      simpa using List.all_eq_true.mp hall tx htx
    exact ⟨iff_of_true rfl hforall, iff_of_false (by decide) (not_not_intro hforall)⟩
  · have hnot : ¬ ∀ tx ∈ g, tx.isError = "0" := by
      intro hforall
      exact hall (List.all_eq_true.mpr (fun tx htx => by simpa using hforall tx htx))
    exact ⟨iff_of_false (by decide) hnot, iff_of_true rfl hnot⟩

/-- C2. Health strip: the strip always has exactly 5 entries; a non-empty
group is Healthy iff every transaction in it has isError = "0" (otherwise
Unhealthy), and an empty group (beyond the available data) is Empty. -/
theorem c2_health_strip (txs : List Tx) :
    (computeHealthStrip txs).length = 5 ∧
    ∀ i, i < 5 →
      (groupOf txs i = [] → (computeHealthStrip txs).getD i .empty = .empty) ∧
      (groupOf txs i ≠ [] →
        (((computeHealthStrip txs).getD i .empty = .healthy ↔
            ∀ tx ∈ groupOf txs i, tx.isError = "0") ∧
         ((computeHealthStrip txs).getD i .empty = .unhealthy ↔
            ¬ ∀ tx ∈ groupOf txs i, tx.isError = "0"))) := by
  refine ⟨by simp [computeHealthStrip], ?_⟩
  intro i hi
  rw [healthStrip_getD txs i hi]
  exact ⟨fun hnil => by rw [hnil]; rfl, fun hne => groupVerdict_spec _ hne⟩

/-- C3 counterexample: on the empty transaction list the source report does
not carry a 5-entry Empty strip nor a Normal stall status: it carries the
"No transactions" health text and the "N/A" stall text (bot.py 229-233). -/
theorem c3_counterexample :
    ¬ ((buildReport 0 0 []).online = .offline ∧
       (buildReport 0 0 []).health = .strip (List.replicate 5 .empty) ∧
       (buildReport 0 0 []).stall = .normal ∧
       (buildReport 0 0 []).lastActivity = none) := by decide

/-- C3 (amended). Empty-input degradation as the source implements it: an
empty fetched list yields onlineStatus Offline, lastActivity "N/A",
health "No transactions" (not a strip), and stall "N/A" (not Normal). -/
theorem c3_empty_report (now : Int) (balance : Rat) :
    buildReport now balance [] = ⟨balance, .offline, none, .noTransactions, .na⟩ := rfl

/-- C7. Online status: a non-empty list is Online iff the elapsed time from
the newest timestamp to now is at most 5 minutes (300 s), Offline
otherwise; the empty list is Offline. -/
theorem c7_online_status (now : Int) (t : Tx) (rest : List Tx) :
    (computeOnlineStatus now (t :: rest) = .online ↔ now - t.timeStamp ≤ 300) ∧
    (computeOnlineStatus now (t :: rest) = .offline ↔ ¬ (now - t.timeStamp ≤ 300)) ∧
    computeOnlineStatus now [] = .offline := by
  have hcons : computeOnlineStatus now (t :: rest) =
      if now - t.timeStamp ≤ 300 then .online else .offline := rfl
  refine ⟨?_, ?_, rfl⟩ <;> rw [hcons] <;> split_ifs with h
  · exact iff_of_true rfl h
  · exact iff_of_false (by decide) h
  · exact iff_of_false (by decide) (not_not_intro h)
  · exact iff_of_true rfl h

/-- The provider's rate-limit sentinel substring (bot.py lines 161, 184). -/
def sentinelText : String := "Max calls per sec rate limit"

/-- Python substring containment `pat in s`, modelled over characters. -/
def containsSub (s pat : String) : Bool :=
  s.toList.tails.any (fun t => pat.toList.isPrefixOf t)

/-- One attempt of `safe_fetch_balance`: either the response's result field
(the string the code passes to `int()`), or a transport/parse exception. -/
inductive BalanceAttempt where
  | resp (result : String)
  | exn
deriving DecidableEq

/-- The result field of one `safe_fetch_transactions` response: a JSON
array of transaction records, a string payload, or any other shape. -/
inductive TxPayload where
  | txList (txs : List Tx)
  | str (s : String)
  | other
deriving DecidableEq

/-- One attempt of `safe_fetch_transactions`. -/
inductive TxAttempt where
  | resp (result : TxPayload)
  | exn
deriving DecidableEq

/-- The retry loop of `safe_fetch_balance` (bot.py lines 149-171), run
against an environment giving each attempt's outcome; `fuel` is the
remaining attempt budget and `i` the current attempt index.  Returns the
value handed to the caller, the performed sleeps (attempt index, slept
seconds) and the number of attempts made.  `String.toInt?` models python
`int()` on the result field.  A parse failure with the sentinel substring
sleeps `delay*(attempt+1)*2` and retries; one without it returns 0.0 at
once; an exception sleeps `delay*(attempt+1)` and retries; an exhausted
budget returns 0.0. -/
def fetchBalanceFrom (delay : Rat) (env : Nat → BalanceAttempt) :
    Nat → Nat → Rat × List (Nat × Rat) × Nat
  | 0, _ => (0, [], 0)
  | fuel + 1, i =>
    match env i with
    | .resp s =>
      match s.toInt? with
      | some n => ((n : Rat) / 10 ^ 18, [], 1)
      | none =>
        if containsSub s sentinelText then
          let r := fetchBalanceFrom delay env fuel (i + 1)
          (r.1, (i, delay * ((i : Rat) + 1) * 2) :: r.2.1, r.2.2 + 1)
        else (0, [], 1)
    | .exn =>
      let r := fetchBalanceFrom delay env fuel (i + 1)
      (r.1, (i, delay * ((i : Rat) + 1)) :: r.2.1, r.2.2 + 1)

/-- `safe_fetch_balance` with its `max_retries = 3` (bot.py line 150). -/
def safeFetchBalance (delay : Rat) (env : Nat → BalanceAttempt) :
    Rat × List (Nat × Rat) × Nat :=
  fetchBalanceFrom delay env 3 0

/-- The retry loop of `safe_fetch_transactions` (bot.py lines 173-194).
A non-empty list result is returned as-is; a string payload with the
sentinel substring sleeps `delay*(attempt+1)*2` and retries; any other
shape (empty list, sentinel-free string, non-list non-string) returns []
at once; an exception sleeps `delay*(attempt+1)` and retries; an exhausted
budget returns []. -/
def fetchTxsFrom (delay : Rat) (env : Nat → TxAttempt) :
    Nat → Nat → List Tx × List (Nat × Rat) × Nat
  | 0, _ => ([], [], 0)
  | fuel + 1, i =>
    match env i with
    | .resp (.txList txs) => if txs.isEmpty then ([], [], 1) else (txs, [], 1)
    | .resp (.str s) =>
      if containsSub s sentinelText then
        let r := fetchTxsFrom delay env fuel (i + 1)
        (r.1, (i, delay * ((i : Rat) + 1) * 2) :: r.2.1, r.2.2 + 1)
      else ([], [], 1)
    | .resp .other => ([], [], 1)
    | .exn =>
      let r := fetchTxsFrom delay env fuel (i + 1)
      (r.1, (i, delay * ((i : Rat) + 1)) :: r.2.1, r.2.2 + 1)

/-- `safe_fetch_transactions` with its `max_retries = 3` (bot.py 174). -/
def safeFetchTxs (delay : Rat) (env : Nat → TxAttempt) :
    List Tx × List (Nat × Rat) × Nat :=
  fetchTxsFrom delay env 3 0

/-- The attempt hit the provider rate-limit signal: the result string fails
`int()` and contains the sentinel substring. -/
def BalanceAttempt.isRateLimited : BalanceAttempt → Prop
  | .resp s => s.toInt? = none ∧ containsSub s sentinelText = true
  | .exn => False

/-- The attempt raised a transport/parse exception. -/
def BalanceAttempt.isExn : BalanceAttempt → Prop
  | .resp _ => False
  | .exn => True

/-- Structurally-unexpected balance payload unrelated to rate limiting. -/
def BalanceAttempt.isUnexpected : BalanceAttempt → Prop
  | .resp s => s.toInt? = none ∧ containsSub s sentinelText = false
  | .exn => False

/-- The attempt hit the provider rate-limit signal embedded in a string
result. -/
def TxAttempt.isRateLimited : TxAttempt → Prop
  | .resp (.str s) => containsSub s sentinelText = true
  | _ => False

/-- The attempt raised a transport/parse exception. -/
def TxAttempt.isExn : TxAttempt → Prop
  | .exn => True
  | _ => False

/-- Structurally-unexpected transactions payload unrelated to rate
limiting: an empty array, a sentinel-free string, or a non-list
non-string shape. -/
def TxAttempt.isUnexpected : TxAttempt → Prop
  | .resp (.txList txs) => txs = []
  | .resp (.str s) => containsSub s sentinelText = false
  | .resp .other => True
  | .exn => False


lemma fbf_some (delay : Rat) (env : Nat → BalanceAttempt) (fuel i : Nat) (s : String) (n : Int)
    (henv : env i = .resp s) (hs : s.toInt? = some n) :
    fetchBalanceFrom delay env (fuel + 1) i = ((n : Rat) / 10 ^ 18, [], 1) := by
  simp only [fetchBalanceFrom, henv, hs]

lemma fbf_rl (delay : Rat) (env : Nat → BalanceAttempt) (fuel i : Nat) (s : String)
    (henv : env i = .resp s) (hs : s.toInt? = none)
    (hsent : containsSub s sentinelText = true) :
    fetchBalanceFrom delay env (fuel + 1) i =
      ((fetchBalanceFrom delay env fuel (i + 1)).1,
       (i, delay * ((i : Rat) + 1) * 2) :: (fetchBalanceFrom delay env fuel (i + 1)).2.1,
       (fetchBalanceFrom delay env fuel (i + 1)).2.2 + 1) := by
  simp only [fetchBalanceFrom, henv, hs, hsent, if_true]

lemma fbf_bad (delay : Rat) (env : Nat → BalanceAttempt) (fuel i : Nat) (s : String)
    (henv : env i = .resp s) (hs : s.toInt? = none)
    (hsent : containsSub s sentinelText = false) :
    fetchBalanceFrom delay env (fuel + 1) i = (0, [], 1) := by
  simp only [fetchBalanceFrom, henv, hs, hsent, Bool.false_eq_true, if_false]

lemma fbf_exn (delay : Rat) (env : Nat → BalanceAttempt) (fuel i : Nat)
    (henv : env i = .exn) :
    fetchBalanceFrom delay env (fuel + 1) i =
      ((fetchBalanceFrom delay env fuel (i + 1)).1,
       (i, delay * ((i : Rat) + 1)) :: (fetchBalanceFrom delay env fuel (i + 1)).2.1,
       (fetchBalanceFrom delay env fuel (i + 1)).2.2 + 1) := by
  simp only [fetchBalanceFrom, henv]

lemma fetchBalanceFrom_attempts_le (delay : Rat) (env : Nat → BalanceAttempt) :
    ∀ fuel i, (fetchBalanceFrom delay env fuel i).2.2 ≤ fuel := by
  intro fuel
  induction fuel with
  | zero => intro i; exact Nat.le_refl 0
  | succ n ih =>
    intro i
    cases henv : env i with
    | resp s =>
      cases hs : s.toInt? with
      | some v =>
        rw [fbf_some delay env n i s v henv hs]
        exact Nat.succ_le_succ (Nat.zero_le n)
      | none =>
        cases hsent : containsSub s sentinelText with
        | true =>
          rw [fbf_rl delay env n i s henv hs hsent]
          exact Nat.succ_le_succ (ih (i + 1))
        | false =>
          rw [fbf_bad delay env n i s henv hs hsent]
          exact Nat.succ_le_succ (Nat.zero_le n)
    | exn =>
      rw [fbf_exn delay env n i henv]
      exact Nat.succ_le_succ (ih (i + 1))

lemma fetchBalanceFrom_all_fail (delay : Rat) (env : Nat → BalanceAttempt) :
    ∀ fuel i, (∀ j, j < fuel → ((env (i + j)).isRateLimited ∨ (env (i + j)).isExn)) →
      (fetchBalanceFrom delay env fuel i).1 = 0 ∧
      (fetchBalanceFrom delay env fuel i).2.2 = fuel := by
  intro fuel
  induction fuel with
  | zero => intro i _; exact ⟨rfl, rfl⟩
  | succ n ih =>
    intro i hall
    have h0 := hall 0 (Nat.succ_pos n)
    rw [Nat.add_zero] at h0
    have hrec := ih (i + 1) (fun j hj => by
      have := hall (j + 1) (Nat.succ_lt_succ hj)
      rwa [show i + (j + 1) = i + 1 + j by omega] at this)
    cases henv : env i with
    | resp s =>
      rw [henv] at h0
      have hrl : s.toInt? = none ∧ containsSub s sentinelText = true := by
        rcases h0 with h | h
        · exact h
        · exact h.elim
      rw [fbf_rl delay env n i s henv hrl.1 hrl.2]
      exact ⟨hrec.1, congrArg (· + 1) hrec.2⟩
    | exn =>
      rw [fbf_exn delay env n i henv]
      exact ⟨hrec.1, congrArg (· + 1) hrec.2⟩

lemma fetchBalanceFrom_unexpected (delay : Rat) (env : Nat → BalanceAttempt) :
    ∀ fuel i k, k < fuel →
      (∀ j, j < k → ((env (i + j)).isRateLimited ∨ (env (i + j)).isExn)) →
      (env (i + k)).isUnexpected →
      (fetchBalanceFrom delay env fuel i).1 = 0 ∧
      (fetchBalanceFrom delay env fuel i).2.2 = k + 1 := by
  intro fuel
  induction fuel with
  | zero => intro i k hk _ _; exact absurd hk (by omega)
  | succ n ih =>
    intro i k hk hprev hunex
    cases k with
    | zero =>
      rw [Nat.add_zero] at hunex
      cases henv : env i with
      | resp s =>
        rw [henv] at hunex
        obtain ⟨hparse, hsent⟩ := hunex
        rw [fbf_bad delay env n i s henv hparse hsent]
        exact ⟨rfl, rfl⟩
      | exn => rw [henv] at hunex; exact hunex.elim
    | succ m =>
      have h0 := hprev 0 (Nat.succ_pos m)
      rw [Nat.add_zero] at h0
      have hrec := ih (i + 1) m (by omega)
        (fun j hj => by
          have := hprev (j + 1) (Nat.succ_lt_succ hj)
          rwa [show i + (j + 1) = i + 1 + j by omega] at this)
        (by rwa [show i + 1 + m = i + (m + 1) by omega])
      cases henv : env i with
      | resp s =>
        rw [henv] at h0
        have hrl : s.toInt? = none ∧ containsSub s sentinelText = true := by
          rcases h0 with h | h
          · exact h
          · exact h.elim
        rw [fbf_rl delay env n i s henv hrl.1 hrl.2]
        exact ⟨hrec.1, congrArg (· + 1) hrec.2⟩
      | exn =>
        rw [fbf_exn delay env n i henv]
        exact ⟨hrec.1, congrArg (· + 1) hrec.2⟩

lemma fetchBalanceFrom_sleep_reached (delay : Rat) (env : Nat → BalanceAttempt) :
    ∀ fuel i k, k < fuel →
      (∀ j, j < k → ((env (i + j)).isRateLimited ∨ (env (i + j)).isExn)) →
      (((env (i + k)).isRateLimited →
        (i + k, delay * (((i + k : Nat) : Rat) + 1) * 2) ∈
          (fetchBalanceFrom delay env fuel i).2.1) ∧
       ((env (i + k)).isExn →
        (i + k, delay * (((i + k : Nat) : Rat) + 1)) ∈
          (fetchBalanceFrom delay env fuel i).2.1)) := by
  intro fuel
  induction fuel with
  | zero => intro i k hk _; exact absurd hk (by omega)
  | succ n ih =>
    intro i k hk hprev
    cases k with
    | zero =>
      rw [Nat.add_zero]
      constructor
      · intro hrl
        cases henv : env i with
        | resp s =>
          rw [henv] at hrl
          obtain ⟨hparse, hsent⟩ := hrl
          rw [fbf_rl delay env n i s henv hparse hsent]
          exact List.mem_cons_self _ _
        | exn => rw [henv] at hrl; exact hrl.elim
      · intro hex
        cases henv : env i with
        | resp s => rw [henv] at hex; exact hex.elim
        | exn =>
          rw [fbf_exn delay env n i henv]
          exact List.mem_cons_self _ _
    | succ m =>
      have h0 := hprev 0 (Nat.succ_pos m)
      rw [Nat.add_zero] at h0
      have hrec := ih (i + 1) m (by omega)
        (fun j hj => by
          have := hprev (j + 1) (Nat.succ_lt_succ hj)
          rwa [show i + (j + 1) = i + 1 + j by omega] at this)
      rw [show i + (m + 1) = i + 1 + m by omega]
      cases henv : env i with
      | resp s =>
        rw [henv] at h0
        have hrl : s.toInt? = none ∧ containsSub s sentinelText = true := by
          rcases h0 with h | h
          · exact h
          · exact h.elim
        rw [fbf_rl delay env n i s henv hrl.1 hrl.2]
        exact ⟨fun h => List.mem_cons_of_mem _ (hrec.1 h),
               fun h => List.mem_cons_of_mem _ (hrec.2 h)⟩
      | exn =>
        rw [fbf_exn delay env n i henv]
        exact ⟨fun h => List.mem_cons_of_mem _ (hrec.1 h),
               fun h => List.mem_cons_of_mem _ (hrec.2 h)⟩

lemma ftf_list (delay : Rat) (env : Nat → TxAttempt) (fuel i : Nat) (txs : List Tx)
    (henv : env i = .resp (.txList txs)) :
    fetchTxsFrom delay env (fuel + 1) i =
      (if txs.isEmpty then ([], [], 1) else (txs, [], 1)) := by
  simp only [fetchTxsFrom, henv]

lemma ftf_rl (delay : Rat) (env : Nat → TxAttempt) (fuel i : Nat) (s : String)
    (henv : env i = .resp (.str s)) (hsent : containsSub s sentinelText = true) :
    fetchTxsFrom delay env (fuel + 1) i =
      ((fetchTxsFrom delay env fuel (i + 1)).1,
       (i, delay * ((i : Rat) + 1) * 2) :: (fetchTxsFrom delay env fuel (i + 1)).2.1,
       (fetchTxsFrom delay env fuel (i + 1)).2.2 + 1) := by
  simp only [fetchTxsFrom, henv, hsent, if_true]

lemma ftf_badstr (delay : Rat) (env : Nat → TxAttempt) (fuel i : Nat) (s : String)
    (henv : env i = .resp (.str s)) (hsent : containsSub s sentinelText = false) :
    fetchTxsFrom delay env (fuel + 1) i = ([], [], 1) := by
  simp only [fetchTxsFrom, henv, hsent, Bool.false_eq_true, if_false]

lemma ftf_other (delay : Rat) (env : Nat → TxAttempt) (fuel i : Nat)
    (henv : env i = .resp .other) :
    fetchTxsFrom delay env (fuel + 1) i = ([], [], 1) := by
  simp only [fetchTxsFrom, henv]

lemma ftf_exn (delay : Rat) (env : Nat → TxAttempt) (fuel i : Nat)
    (henv : env i = .exn) :
    fetchTxsFrom delay env (fuel + 1) i =
      ((fetchTxsFrom delay env fuel (i + 1)).1,
       (i, delay * ((i : Rat) + 1)) :: (fetchTxsFrom delay env fuel (i + 1)).2.1,
       (fetchTxsFrom delay env fuel (i + 1)).2.2 + 1) := by
  simp only [fetchTxsFrom, henv]

lemma fetchTxsFrom_attempts_le (delay : Rat) (env : Nat → TxAttempt) :
    ∀ fuel i, (fetchTxsFrom delay env fuel i).2.2 ≤ fuel := by
  intro fuel
  induction fuel with
  | zero => intro i; exact Nat.le_refl 0
  | succ n ih =>
    intro i
    cases henv : env i with
    | resp p =>
      cases p with
      | txList txs =>
        rw [ftf_list delay env n i txs henv]
        cases txs.isEmpty <;> exact Nat.succ_le_succ (Nat.zero_le n)
      | str s =>
        cases hsent : containsSub s sentinelText with
        | true =>
          rw [ftf_rl delay env n i s henv hsent]
          exact Nat.succ_le_succ (ih (i + 1))
        | false =>
          rw [ftf_badstr delay env n i s henv hsent]
          exact Nat.succ_le_succ (Nat.zero_le n)
      | other =>
        rw [ftf_other delay env n i henv]
        exact Nat.succ_le_succ (Nat.zero_le n)
    | exn =>
      rw [ftf_exn delay env n i henv]
      exact Nat.succ_le_succ (ih (i + 1))

lemma fetchTxsFrom_all_fail (delay : Rat) (env : Nat → TxAttempt) :
    ∀ fuel i, (∀ j, j < fuel → ((env (i + j)).isRateLimited ∨ (env (i + j)).isExn)) →
      (fetchTxsFrom delay env fuel i).1 = [] ∧
      (fetchTxsFrom delay env fuel i).2.2 = fuel := by
  intro fuel
  induction fuel with
  | zero => intro i _; exact ⟨rfl, rfl⟩
  | succ n ih =>
    intro i hall
    have h0 := hall 0 (Nat.succ_pos n)
    rw [Nat.add_zero] at h0
    have hrec := ih (i + 1) (fun j hj => by
      have := hall (j + 1) (Nat.succ_lt_succ hj)
      rwa [show i + (j + 1) = i + 1 + j by omega] at this)
    cases henv : env i with
    | resp p =>
      rw [henv] at h0
      cases p with
      | txList txs => rcases h0 with h | h <;> exact h.elim
      | str s =>
        have hsent : containsSub s sentinelText = true := by
          rcases h0 with h | h
          · exact h
          · exact h.elim
        rw [ftf_rl delay env n i s henv hsent]
        exact ⟨hrec.1, congrArg (· + 1) hrec.2⟩
      | other => rcases h0 with h | h <;> exact h.elim
    | exn =>
      rw [ftf_exn delay env n i henv]
      exact ⟨hrec.1, congrArg (· + 1) hrec.2⟩

lemma fetchTxsFrom_unexpected (delay : Rat) (env : Nat → TxAttempt) :
    ∀ fuel i k, k < fuel →
      (∀ j, j < k → ((env (i + j)).isRateLimited ∨ (env (i + j)).isExn)) →
      (env (i + k)).isUnexpected →
      (fetchTxsFrom delay env fuel i).1 = [] ∧
      (fetchTxsFrom delay env fuel i).2.2 = k + 1 := by
  intro fuel
  induction fuel with
  | zero => intro i k hk _ _; exact absurd hk (by omega)
  | succ n ih =>
    intro i k hk hprev hunex
    cases k with
    | zero =>
      rw [Nat.add_zero] at hunex
      cases henv : env i with
      | resp p =>
        rw [henv] at hunex
        cases p with
        | txList txs =>
          have hempty : txs = [] := hunex
          rw [ftf_list delay env n i txs henv, hempty]
          exact ⟨rfl, rfl⟩
        | str s =>
          have hsent : containsSub s sentinelText = false := hunex
          rw [ftf_badstr delay env n i s henv hsent]
          exact ⟨rfl, rfl⟩
        | other =>
          rw [ftf_other delay env n i henv]
          exact ⟨rfl, rfl⟩
      | exn => rw [henv] at hunex; exact hunex.elim
    | succ m =>
      have h0 := hprev 0 (Nat.succ_pos m)
      rw [Nat.add_zero] at h0
      have hrec := ih (i + 1) m (by omega)
        (fun j hj => by
          have := hprev (j + 1) (Nat.succ_lt_succ hj)
          rwa [show i + (j + 1) = i + 1 + j by omega] at this)
        (by rwa [show i + 1 + m = i + (m + 1) by omega])
      cases henv : env i with
      | resp p =>
        rw [henv] at h0
        cases p with
        | txList txs => rcases h0 with h | h <;> exact h.elim
        | str s =>
          have hsent : containsSub s sentinelText = true := by
            rcases h0 with h | h
            · exact h
            · exact h.elim
          rw [ftf_rl delay env n i s henv hsent]
          exact ⟨hrec.1, congrArg (· + 1) hrec.2⟩
        | other => rcases h0 with h | h <;> exact h.elim
      | exn =>
        rw [ftf_exn delay env n i henv]
        exact ⟨hrec.1, congrArg (· + 1) hrec.2⟩

lemma fetchTxsFrom_sleep_reached (delay : Rat) (env : Nat → TxAttempt) :
    ∀ fuel i k, k < fuel →
      (∀ j, j < k → ((env (i + j)).isRateLimited ∨ (env (i + j)).isExn)) →
      (((env (i + k)).isRateLimited →
        (i + k, delay * (((i + k : Nat) : Rat) + 1) * 2) ∈
          (fetchTxsFrom delay env fuel i).2.1) ∧
       ((env (i + k)).isExn →
        (i + k, delay * (((i + k : Nat) : Rat) + 1)) ∈
          (fetchTxsFrom delay env fuel i).2.1)) := by
  intro fuel
  induction fuel with
  | zero => intro i k hk _; exact absurd hk (by omega)
  | succ n ih =>
    intro i k hk hprev
    cases k with
    | zero =>
      rw [Nat.add_zero]
      constructor
      · intro hrl
        cases henv : env i with
        | resp p =>
          rw [henv] at hrl
          cases p with
          | txList txs => exact hrl.elim
          | str s =>
            rw [ftf_rl delay env n i s henv hrl]
            exact List.mem_cons_self _ _
          | other => exact hrl.elim
        | exn => rw [henv] at hrl; exact hrl.elim
      · intro hex
        cases henv : env i with
        | resp p => rw [henv] at hex; cases p <;> exact hex.elim
        | exn =>
          rw [ftf_exn delay env n i henv]
          exact List.mem_cons_self _ _
    | succ m =>
      have h0 := hprev 0 (Nat.succ_pos m)
      rw [Nat.add_zero] at h0
      have hrec := ih (i + 1) m (by omega)
        (fun j hj => by
          have := hprev (j + 1) (Nat.succ_lt_succ hj)
          rwa [show i + (j + 1) = i + 1 + j by omega] at this)
      rw [show i + (m + 1) = i + 1 + m by omega]
      cases henv : env i with
      | resp p =>
        rw [henv] at h0
        cases p with
        | txList txs => rcases h0 with h | h <;> exact h.elim
        | str s =>
          have hsent : containsSub s sentinelText = true := by
            rcases h0 with h | h
            · exact h
            · exact h.elim
          rw [ftf_rl delay env n i s henv hsent]
          exact ⟨fun h => List.mem_cons_of_mem _ (hrec.1 h),
                 fun h => List.mem_cons_of_mem _ (hrec.2 h)⟩
        | other => rcases h0 with h | h <;> exact h.elim
      | exn =>
        rw [ftf_exn delay env n i henv]
        exact ⟨fun h => List.mem_cons_of_mem _ (hrec.1 h),
               fun h => List.mem_cons_of_mem _ (hrec.2 h)⟩

/-- C5. Rate-limit backoff: in both fetch operations a rate-limited attempt
i (sentinel substring in the result field) sleeps delay*(i+1)*2, double the
generic-failure backoff delay*(i+1) of an exception attempt, and then
retries; both kinds of failure consume the one shared max_retries = 3
attempt budget (the attempt count never exceeds 3, and three consecutive
failures of either kind exhaust it). -/
theorem c5_rate_limit_backoff (delay : Rat) (benv : Nat → BalanceAttempt)
    (tenv : Nat → TxAttempt) :
    (∀ i, i < 3 → (∀ j, j < i → ((benv j).isRateLimited ∨ (benv j).isExn)) →
       ((benv i).isRateLimited →
          (i, delay * ((i : Rat) + 1) * 2) ∈ (safeFetchBalance delay benv).2.1) ∧
       ((benv i).isExn →
          (i, delay * ((i : Rat) + 1)) ∈ (safeFetchBalance delay benv).2.1)) ∧
    (∀ i, i < 3 → (∀ j, j < i → ((tenv j).isRateLimited ∨ (tenv j).isExn)) →
       ((tenv i).isRateLimited →
          (i, delay * ((i : Rat) + 1) * 2) ∈ (safeFetchTxs delay tenv).2.1) ∧
       ((tenv i).isExn →
          (i, delay * ((i : Rat) + 1)) ∈ (safeFetchTxs delay tenv).2.1)) ∧
    (safeFetchBalance delay benv).2.2 ≤ 3 ∧
    (safeFetchTxs delay tenv).2.2 ≤ 3 ∧
    ((∀ j, j < 3 → ((benv j).isRateLimited ∨ (benv j).isExn)) →
       (safeFetchBalance delay benv).2.2 = 3) ∧
    ((∀ j, j < 3 → ((tenv j).isRateLimited ∨ (tenv j).isExn)) →
       (safeFetchTxs delay tenv).2.2 = 3) := by
  refine ⟨?_, ?_, fetchBalanceFrom_attempts_le delay benv 3 0,
         fetchTxsFrom_attempts_le delay tenv 3 0, ?_, ?_⟩
  · intro i hi hprev
    have h := fetchBalanceFrom_sleep_reached delay benv 3 0 i hi (by simpa using hprev)
    simpa using h
  · intro i hi hprev
    have h := fetchTxsFrom_sleep_reached delay tenv 3 0 i hi (by simpa using hprev)
    simpa using h
  · intro hall
    exact (fetchBalanceFrom_all_fail delay benv 3 0 (by simpa using hall)).2
  · intro hall
    exact (fetchTxsFrom_all_fail delay tenv 3 0 (by simpa using hall)).2

/-- C6. Total failure absorption: both fetch models are total functions of
the outcome environment (no exception escapes to the caller); a
structurally-unexpected payload unrelated to rate limiting at attempt i
makes the call return the neutral value (0 balance, [] transactions) at
once, consuming only i+1 attempts; and three retriable failures
(rate-limited or exception) likewise end in the neutral value. -/
theorem c6_failure_absorption (delay : Rat) (benv : Nat → BalanceAttempt)
    (tenv : Nat → TxAttempt) :
    (∀ i, i < 3 → (∀ j, j < i → ((benv j).isRateLimited ∨ (benv j).isExn)) →
       (benv i).isUnexpected →
       (safeFetchBalance delay benv).1 = 0 ∧
       (safeFetchBalance delay benv).2.2 = i + 1) ∧
    (∀ i, i < 3 → (∀ j, j < i → ((tenv j).isRateLimited ∨ (tenv j).isExn)) →
       (tenv i).isUnexpected →
       (safeFetchTxs delay tenv).1 = [] ∧
       (safeFetchTxs delay tenv).2.2 = i + 1) ∧
    ((∀ j, j < 3 → ((benv j).isRateLimited ∨ (benv j).isExn)) →
       (safeFetchBalance delay benv).1 = 0) ∧
    ((∀ j, j < 3 → ((tenv j).isRateLimited ∨ (tenv j).isExn)) →
       (safeFetchTxs delay tenv).1 = []) := by
  refine ⟨?_, ?_, ?_, ?_⟩
  · intro i hi hprev hunex
    have h := fetchBalanceFrom_unexpected delay benv 3 0 i hi
      (by simpa using hprev) (by simpa using hunex)
    simpa using h
  · intro i hi hprev hunex
    have h := fetchTxsFrom_unexpected delay tenv 3 0 i hi
      (by simpa using hprev) (by simpa using hunex)
    simpa using h
  · intro hall
    exact (fetchBalanceFrom_all_fail delay benv 3 0 (by simpa using hall)).1
  · intro hall
    exact (fetchTxsFrom_all_fail delay tenv 3 0 (by simpa using hall)).1

/-- The outcome environments of one address: one stream for the balance
call and one for the transactions call. -/
structure AddressEnv where
  balance : Nat → BalanceAttempt
  txs : Nat → TxAttempt

/-- The per-address step of the batch loops of `auto_update` (bot.py
214-233) and `menu_check_status` (392-411): fetch the balance, fetch the
transactions, build the report; the delay handed to both fetch helpers is
the explicit parameter. -/
def evaluateAddress (now : Int) (delay : Rat) (env : AddressEnv) : Report :=
  buildReport now (safeFetchBalance delay env.balance).1 (safeFetchTxs delay env.txs).1

/-- The batch evaluation of `auto_update` (bot.py 209, 214-233), identical
in `menu_check_status` (392-411): at most 15 addresses are processed in
order and both fetches of every address receive the literal delay 2.0 of
the call sites at lines 217-218 / 395-396. -/
def autoUpdateReports (now : Int) (envs : String → AddressEnv)
    (addresses : List String) : List Report :=
  (addresses.take 15).map (fun w => evaluateAddress now 2 (envs w))

/-- Modelled from the spec: the RateLimiter rule computeDelay of spec §4.1
(src/bot.py contains no such computation; its call sites pass the literal
2.0).  totalCalls = callsPerAddress * addressCount; within the
maxCallsPerSecond ceiling return floorDelaySeconds, likewise under the
intervals <= 0 guard; else max of requiredTotalTime / intervals and
floorDelaySeconds. -/
def computeDelay (addressCount callsPerAddress : Nat)
    (maxCallsPerSecond floorDelaySeconds : Rat) : Rat :=
  if ((callsPerAddress : Rat) * addressCount) ≤ maxCallsPerSecond then
    floorDelaySeconds
  else if ((callsPerAddress : Rat) * addressCount) - 1 ≤ 0 then
    floorDelaySeconds
  else
    max ((((callsPerAddress : Rat) * addressCount) / maxCallsPerSecond) /
          (((callsPerAddress : Rat) * addressCount) - 1)) floorDelaySeconds

lemma computeDelay_two (n : Nat) : computeDelay n 2 2 2 = 2 := by
  unfold computeDelay
  split_ifs with h1 h2
  · rfl
  · rfl
  · have hn : (2 : Rat) < ((2 : Nat) : Rat) * n := lt_of_not_le h1
    have hn2 : (1 : Rat) < (n : Rat) := by push_cast at hn; linarith
    have hpos : (0 : Rat) < ((2 : Nat) : Rat) * n - 1 := by push_cast; push_cast at hn2; linarith
    have hle : (((2 : Nat) : Rat) * n / 2) / (((2 : Nat) : Rat) * n - 1) ≤ 2 := by
      rw [div_le_iff₀ hpos]
      push_cast
      push_cast at hn2
      nlinarith
    exact max_eq_right hle

/-- C4. Batch rate budget: a batch passes one single delay value to both
the balance fetch and the transaction fetch of every address, and that
value agrees with the spec RateLimiter rule (callsPerAddress = 2, so
totalCalls = 2n) instantiated at floorDelaySeconds = 2 and
maxCallsPerSecond = 2, where the rule returns 2 for every batch size n —
the literal 2.0 that src/bot.py passes at lines 217-218 / 395-396. -/
theorem c4_rate_budget (now : Int) (envs : String → AddressEnv)
    (addresses : List String) :
    computeDelay (addresses.take 15).length 2 2 2 = 2 ∧
    autoUpdateReports now envs addresses =
      (addresses.take 15).map (fun w =>
        evaluateAddress now
          (computeDelay (addresses.take 15).length 2 2 2) (envs w)) := by
  refine ⟨computeDelay_two _, ?_⟩
  rw [computeDelay_two]
  rfl

/-- The method selector of a transaction: the first 10 characters of the
lowercased input data (spec §3: selector in the first 10 chars). -/
def selectorOf (tx : Tx) : String :=
  ⟨(lowerChars tx.input).take 10⟩

/-- Modelled from the spec: the primary scan step of
`findLastSubstantiveTransaction` (spec §4.3) — skip heartbeat-selector and
failed transactions, match the selector against the allow-list and map the
hit to its label and the timestamp. -/
def primaryScan (sel : String) (allowed : List (String × String)) (tx : Tx) :
    Option (String × Int) :=
  if isHbWith sel tx ∨ tx.isError ≠ "0" then none
  else (allowed.lookup (selectorOf tx)).map (fun lbl => (lbl, tx.timeStamp))

/-- Modelled from the spec: the fallback scan step of
`findLastSubstantiveTransaction` (spec §4.3) — the first successful
non-heartbeat transaction whose function name contains "create". -/
def fallbackScan (sel : String) (tx : Tx) : Option (String × Int) :=
  if isHbWith sel tx = false ∧ tx.isError = "0" ∧
      containsSub tx.functionName "create" = true
  then some ("Create", tx.timeStamp) else none

/-- Modelled from the spec: `findLastSubstantiveTransaction` of spec §4.3
(no such function exists in src/bot.py).  Scanning newest-first it skips
heartbeat-selector transactions and failed transactions and returns label
and timestamp of the first transaction whose selector is in the allow
list; when none matches, the fallback scan looks for the first successful
transaction whose function name contains "create"; otherwise nothing. -/
def findLastSubstantiveTransaction (txs : List Tx) (sel : String)
    (allowed : List (String × String)) : Option (String × Int) :=
  match txs.findSome? (primaryScan sel allowed) with
  | some r => some r
  | none => txs.findSome? (fallbackScan sel)

lemma primaryScan_none (sel : String) (allowed : List (String × String)) (p : Tx)
    (h : isHbWith sel p = true ∨ p.isError ≠ "0" ∨
         allowed.lookup (selectorOf p) = none) :
    primaryScan sel allowed p = none := by
  unfold primaryScan
  rcases h with h | h | h
  · rw [if_pos (Or.inl h)]
  · rw [if_pos (Or.inr h)]
  · by_cases hc : isHbWith sel p = true ∨ p.isError ≠ "0"
    · rw [if_pos hc]
    · rw [if_neg hc, h]
      rfl

lemma fallbackScan_none (sel : String) (p : Tx)
    (h : isHbWith sel p = true ∨ p.isError ≠ "0" ∨
         containsSub p.functionName "create" = false) :
    fallbackScan sel p = none := by
  unfold fallbackScan
  rcases h with h | h | h
  · rw [if_neg]
    rintro ⟨hf, -, -⟩
    rw [h] at hf
    cases hf
  · rw [if_neg]
    rintro ⟨-, he, -⟩
    exact h he
  · rw [if_neg]
    rintro ⟨-, -, hc⟩
    rw [h] at hc
    cases hc

/-- C8 (spec-modelled). The substantive-transaction scan skips heartbeat
and failed transactions; it returns label and timestamp of the first
allow-listed successful non-heartbeat transaction; it falls back to the
first successful non-heartbeat transaction whose function name contains
"create"; it returns nothing when the whole window is skipped — in
particular on an all-heartbeat, all-failed window. -/
theorem c8_find_last_substantive (sel : String) (allowed : List (String × String)) :
    (∀ txs : List Tx, (∀ tx ∈ txs, isHbWith sel tx = true ∧ tx.isError ≠ "0") →
       findLastSubstantiveTransaction txs sel allowed = none) ∧
    (∀ pre post : List Tx, ∀ tx : Tx, ∀ lbl : String,
       (∀ p ∈ pre, isHbWith sel p = true ∨ p.isError ≠ "0" ∨
          allowed.lookup (selectorOf p) = none) →
       isHbWith sel tx = false → tx.isError = "0" →
       allowed.lookup (selectorOf tx) = some lbl →
       findLastSubstantiveTransaction (pre ++ tx :: post) sel allowed =
         some (lbl, tx.timeStamp)) ∧
    (∀ txs : List Tx,
       (∀ tx ∈ txs, isHbWith sel tx = true ∨ tx.isError ≠ "0" ∨
          (allowed.lookup (selectorOf tx) = none ∧
           containsSub tx.functionName "create" = false)) →
       findLastSubstantiveTransaction txs sel allowed = none) ∧
    (∀ pre post : List Tx, ∀ tx : Tx,
       (∀ p ∈ pre ++ tx :: post, isHbWith sel p = true ∨ p.isError ≠ "0" ∨
          allowed.lookup (selectorOf p) = none) →
       (∀ p ∈ pre, isHbWith sel p = true ∨ p.isError ≠ "0" ∨
          containsSub p.functionName "create" = false) →
       isHbWith sel tx = false → tx.isError = "0" →
       containsSub tx.functionName "create" = true →
       findLastSubstantiveTransaction (pre ++ tx :: post) sel allowed =
         some ("Create", tx.timeStamp)) := by
  refine ⟨?_, ?_, ?_, ?_⟩
  · intro txs hall
    unfold findLastSubstantiveTransaction
    have hp : txs.findSome? (primaryScan sel allowed) = none :=
      List.findSome?_eq_none_iff.mpr
        (fun tx htx => primaryScan_none sel allowed tx (Or.inl (hall tx htx).1))
    rw [hp]
    exact List.findSome?_eq_none_iff.mpr
      (fun tx htx => fallbackScan_none sel tx (Or.inr (Or.inl (hall tx htx).2)))
  · intro pre post tx lbl hpre hhb herr hlook
    unfold findLastSubstantiveTransaction
    have hpre' : pre.findSome? (primaryScan sel allowed) = none :=
      List.findSome?_eq_none_iff.mpr
        (fun p hp => primaryScan_none sel allowed p (hpre p hp))
    have hcond : ¬ (isHbWith sel tx = true ∨ tx.isError ≠ "0") := by
      rintro (h | h)
      · rw [hhb] at h; cases h
      · exact h herr
    have hftx : primaryScan sel allowed tx = some (lbl, tx.timeStamp) := by
      unfold primaryScan
      rw [if_neg hcond, hlook]
      rfl
    rw [List.findSome?_append, hpre', Option.none_or, List.findSome?_cons, hftx]
  · intro txs hall
    unfold findLastSubstantiveTransaction
    have hp : txs.findSome? (primaryScan sel allowed) = none :=
      List.findSome?_eq_none_iff.mpr (fun tx htx => primaryScan_none sel allowed tx
        (by rcases hall tx htx with h | h | h
            exacts [Or.inl h, Or.inr (Or.inl h), Or.inr (Or.inr h.1)]))
    rw [hp]
    exact List.findSome?_eq_none_iff.mpr (fun tx htx => fallbackScan_none sel tx
      (by rcases hall tx htx with h | h | h
          exacts [Or.inl h, Or.inr (Or.inl h), Or.inr (Or.inr h.2)]))
  · intro pre post tx hallp hpref hhb herr hcr
    unfold findLastSubstantiveTransaction
    have hp : (pre ++ tx :: post).findSome? (primaryScan sel allowed) = none :=
      List.findSome?_eq_none_iff.mpr
        (fun p hp => primaryScan_none sel allowed p (hallp p hp))
    rw [hp]
    have hpre' : pre.findSome? (fallbackScan sel) = none :=
      List.findSome?_eq_none_iff.mpr
        (fun p hp => fallbackScan_none sel p (hpref p hp))
    have hftx : fallbackScan sel tx = some ("Create", tx.timeStamp) := by
      unfold fallbackScan
      rw [if_pos ⟨hhb, herr, hcr⟩]
    rw [List.findSome?_append, hpre', Option.none_or, List.findSome?_cons, hftx]

/-- Python str.strip(), modelled character-wise. -/
def trimChars (cs : List Char) : List Char :=
  ((cs.dropWhile Char.isWhitespace).reverse.dropWhile Char.isWhitespace).reverse

/-- Python text.split(","), modelled character-wise; like python it always
returns at least one (possibly empty) field. -/
def splitComma : List Char → List (List Char)
  | [] => [[]]
  | c :: rest =>
    match splitComma rest with
    | [] => [[]]
    | g :: gs => if c = ',' then [] :: g :: gs else (c :: g) :: gs

/-- `parts = [x.strip() for x in text.split(",")]` over the stripped
message text (bot.py 282-283). -/
def partsOf (text : String) : List (List Char) :=
  (splitComma (trimChars text.toList)).map trimChars

/-- `wallet = parts[0].lower()` (bot.py 284). -/
def walletOf (text : String) : List Char :=
  ((partsOf text).headD []).map Char.toLower

/-- `label = parts[1] if len(parts) > 1 else ""` (bot.py 285). -/
def labelOf (text : String) : List Char :=
  (partsOf text).getD 1 []

/-- `add_address_receive` (bot.py 280-299), acting on the stored address
list (pairs of address and label, from the stored dicts): `none` when the
input is rejected — invalid format (line 286), duplicate (line 290) or the
15-node cap (line 293), in each of which the code leaves the stored list
untouched — and `some` of the appended list on acceptance (lines 296-297). -/
def addAddressReceive (text : String)
    (addresses : List (List Char × List Char)) :
    Option (List (List Char × List Char)) :=
  if ¬ (['0', 'x'].isPrefixOf (walletOf text)) ∨ (walletOf text).length ≠ 42 then
    none
  else if addresses.any (fun item => item.1 == walletOf text) then none
  else if 15 ≤ addresses.length then none
  else some (addresses ++ [(walletOf text, labelOf text)])

/-- The address format claim C9 states (spec §3): a lowercase hexadecimal
string, exactly 42 characters, prefixed 0x — a second definition written
from the spec words, to compare with the source validation. -/
def isValidAddressSpec (s : String) : Bool :=
  (s.length == 42) && ['0', 'x'].isPrefixOf s.toList &&
    (s.toList.drop 2).all (fun c => c.isDigit || ('a' ≤ c && c ≤ 'f'))

/-- C9 counterexample: the 42-character non-hexadecimal input 0x + 40 z's
is accepted and stored by the source (which checks only the 0x prefix and
the length, bot.py 286), yet it is not a lowercase hexadecimal address. -/
theorem c9_counterexample :
    addAddressReceive "0xzzzzzzzzzzzzzzzzzzzzzzzzzzzzzzzzzzzzzzzz" [] =
      some [("0xzzzzzzzzzzzzzzzzzzzzzzzzzzzzzzzzzzzzzzzz".toList, [])] ∧
    isValidAddressSpec "0xzzzzzzzzzzzzzzzzzzzzzzzzzzzzzzzzzzzzzzzz" = false := by
  constructor
  · rfl
  · rfl

/-- C9 (amended). Address ingestion as the source implements it: the input
is accepted iff the lowercased first comma-field of the stripped text
starts with 0x and has exactly 42 characters (no hexadecimal check), is
not already stored, and fewer than 15 addresses are stored; acceptance
appends exactly the lowercased wallet with its label; every rejection
returns none, the branch in which the code leaves the stored list
unchanged. -/
theorem c9_address_validation (text : String)
    (addresses : List (List Char × List Char)) :
    ((addAddressReceive text addresses).isSome = true ↔
      (['0', 'x'].isPrefixOf (walletOf text) = true ∧
       (walletOf text).length = 42 ∧
       (∀ item ∈ addresses, item.1 ≠ walletOf text) ∧
       addresses.length < 15)) ∧
    (∀ stored, addAddressReceive text addresses = some stored →
       stored = addresses ++ [(walletOf text, labelOf text)]) := by
  unfold addAddressReceive
  split_ifs with h1 h2 h3
  · refine ⟨?_, ?_⟩
    · simp only [Option.isSome_none, Bool.false_eq_true, false_iff]
      rintro ⟨hpre, hlen, -, -⟩
      rcases h1 with h | h
      · exact h hpre
      · exact h hlen
    · intro stored hst
      cases hst
  · refine ⟨?_, ?_⟩
    · simp only [Option.isSome_none, Bool.false_eq_true, false_iff]
      rintro ⟨-, -, hnodup, -⟩
      rw [List.any_eq_true] at h2
      obtain ⟨item, hmem, heq⟩ := h2
      exact hnodup item hmem (by simpa using heq)
    · intro stored hst
      cases hst
  · refine ⟨?_, ?_⟩
    · simp only [Option.isSome_none, Bool.false_eq_true, false_iff]
      rintro ⟨-, -, -, hcap⟩
      omega
    · intro stored hst
      cases hst
  · push_neg at h1
    refine ⟨?_, ?_⟩
    · simp only [Option.isSome_some, true_iff]
      refine ⟨h1.1, h1.2, ?_, by omega⟩
      intro item hmem heq
      exact h2 (List.any_eq_true.mpr ⟨item, hmem, by simpa using heq⟩)
    · intro stored hst
      cases hst
      rfl

lemma isHeartbeat_congr {a b : Tx} (h : a.input = b.input) :
    isHeartbeat a = isHeartbeat b := by
  unfold isHeartbeat isHbWith lowerChars
  rw [h]

lemma forall₂_all_heartbeat {l₁ l₂ : List Tx}
    (h : List.Forall₂ (fun a b => a.input = b.input) l₁ l₂) :
    l₁.all isHeartbeat = l₂.all isHeartbeat := by
  induction h with
  | nil => rfl
  | cons hab htail ih => simp only [List.all_cons, isHeartbeat_congr hab, ih]

/-- C10. The stall status reads only the input fields: two transaction
lists related element-wise by equality of input (hence of the same length)
get the same stall status, whatever their isError, timestamp or function
name; in particular 25 failed heartbeats are still Stalled. -/
theorem c10_stall_input_only (txs1 txs2 : List Tx)
    (h : List.Forall₂ (fun a b => a.input = b.input) txs1 txs2) :
    computeStallStatus txs1 = computeStallStatus txs2 ∧
    computeStallStatus (List.replicate 25 failedPingTx) = .stalled := by
  refine ⟨?_, by decide⟩
  have htake := List.forall₂_take 25 h
  unfold computeStallStatus
  rw [forall₂_all_heartbeat htake, htake.length_eq]

/-- Witness for C10 at a concrete pair: a successful and a failed
transaction with the same heartbeat input get the same stall status. -/
theorem c10_witness :
    computeStallStatus [pingTx] =
      computeStallStatus [⟨99, "1", "0x5c36b186aabbcc", "other"⟩] ∧
    computeStallStatus (List.replicate 25 failedPingTx) = .stalled :=
  c10_stall_input_only _ _ (List.Forall₂.cons rfl List.Forall₂.nil)
